import Mathlib

/-!
Verification of the envelope trackers in `q/fx/envelope.hpp` (cycfi::q).

Floating-point samples are modelled as rationals (`ℚ`) for the staircase /
RMS pipeline (whose claims are about exact max/clamp arithmetic and concrete
runs) and as reals (`ℝ`) for the exponential and peak followers (whose
coefficients come from an exponential). The 16-bit counters `_tick` and `_i`
are modelled as naturals reduced modulo 2^16 where the source increments them.
-/

namespace Q

/-- State of `basic_fast_envelope_follower<div>`: `div` is the template
subdivision parameter (`size = div+1` slots), `y` the slot array `_y`,
`peak` the stored `_peak`, and `tick`, `i`, `reset` the `std::uint16_t`
fields `_tick`, `_i`, `_reset`. -/
structure FastEnv where
  div : ℕ
  y : List ℚ
  peak : ℚ
  tick : ℕ
  i : ℕ
  reset : ℕ
  deriving DecidableEq

/-- Number of slots, `size = div + 1`. -/
def FastEnv.size (st : FastEnv) : ℕ := st.div + 1

/-- Constructor `basic_fast_envelope_follower(std::size_t hold_samples)`:
fills `_y` with 0; `_reset` is a `std::uint16_t` initialized from a
`std::size_t`, hence reduced modulo 2^16. `_peak = 0`, `_tick = _i = 0`. -/
def fastEnvInit (div holdSamples : ℕ) : FastEnv :=
  { div := div
    y := List.replicate (div + 1) 0
    peak := 0
    tick := 0
    i := 0
    reset := holdSamples % 65536 }

/-- `*std::max_element(_y.begin(), _y.end())` for the nonempty slot array
(the source guarantees `size = div+1 ≥ 2`); on the empty list we return 0. -/
def maxElem : List ℚ → ℚ
  | [] => 0
  | x :: xs => xs.foldl max x

/-- One call of `basic_fast_envelope_follower::operator()(float s)`:
every slot becomes `max(s, y)`; then `if (_tick++ == _reset)` resets the
tick, zeroes slot `_i++ % size` (round robin), and finally `_peak` is the
maximum over the slots and is returned (here: stored in the state). -/
def FastEnv.process (st : FastEnv) (s : ℚ) : FastEnv :=
  let y1 := st.y.map (fun v => max s v)
  if st.tick = st.reset then
    let y2 := y1.set (st.i % st.size) 0
    { st with y := y2, peak := maxElem y2, tick := 0, i := (st.i + 1) % 65536 }
  else
    { st with y := y1, peak := maxElem y1, tick := (st.tick + 1) % 65536 }

/-- Run the follower over a list of input samples. -/
def FastEnv.run (st : FastEnv) : List ℚ → FastEnv
  | [] => st
  | s :: ss => (st.process s).run ss

/-- The list of values returned by successive calls on the given inputs. -/
def FastEnv.outputs (st : FastEnv) : List ℚ → List ℚ
  | [] => []
  | s :: ss => (st.process s).peak :: (st.process s).outputs ss

/-- Number of calls, over the given inputs, on which the round-robin reset
fires (the source clears a slot exactly when the pre-call `_tick` equals
`_reset`). -/
def clearCount (st : FastEnv) : List ℚ → ℕ
  | [] => 0
  | s :: ss => (if st.tick = st.reset then 1 else 0) + clearCount (st.process s) ss

/-- Modelled from the spec: the moving-average filter is an external
collaborator (`q/fx/moving_average.hpp` is not part of this source). Per the
spec it is a sliding-window mean over the last `n` samples, constructed from
a window sample count (or a hold duration and sample rate); any correctly
implemented sliding-window moving average satisfies the contract. The buffer
starts zero-filled, so the output is the sum of the window divided by `n`. -/
structure MovingAvg where
  n : ℕ
  buf : List ℚ
  out : ℚ
  deriving DecidableEq

/-- Modelled from the spec: moving-average construction from a window sample
count, zero-initialized buffer, output 0. -/
def movingAvgInit (n : ℕ) : MovingAvg :=
  { n := n, buf := List.replicate n 0, out := 0 }

/-- Modelled from the spec: one step of the sliding-window mean — push the
new sample, keep the most recent `n`, output their sum divided by `n`. -/
def MovingAvg.process (ma : MovingAvg) (s : ℚ) : MovingAvg :=
  let buf1 := (s :: ma.buf).take ma.n
  { ma with buf := buf1, out := buf1.sum / ma.n }

/-- State of `basic_smoothed_fast_envelope_follower<div>`: the staircase
follower `_fenv` and the moving average `_ma`, both sized by the same hold
sample count. -/
structure SmoothedFastEnv where
  fenv : FastEnv
  ma : MovingAvg
  deriving DecidableEq

/-- Constructor `basic_smoothed_fast_envelope_follower(std::size_t
hold_samples)`: both members are constructed from the same sample count. -/
def smoothedInit (div holdSamples : ℕ) : SmoothedFastEnv :=
  { fenv := fastEnvInit div holdSamples, ma := movingAvgInit holdSamples }

/-- One call of `basic_smoothed_fast_envelope_follower::operator()(float s)`:
`return _ma(_fenv(s));`. -/
def SmoothedFastEnv.process (st : SmoothedFastEnv) (s : ℚ) : SmoothedFastEnv :=
  let f := st.fenv.process s
  { fenv := f, ma := st.ma.process f.peak }

/-- The value returned by `SmoothedFastEnv.process` (the moving average of
the staircase output). -/
def SmoothedFastEnv.out (st : SmoothedFastEnv) : ℚ := st.ma.out

/-- Modelled from the spec: `as_float(-120_dB)` (the decibel utilities in
`q/support/decibel.hpp` are not part of this source) — the linear magnitude
of −120 dB, i.e. 10^(−120/20) = 10^(−6). -/
def rmsThreshold : ℚ := 1 / 1000000

/-- The tracked energy of `fast_rms_envelope_follower::operator()(float s)`:
`auto e = _fenv(s*s);` — the squared input fed to the smoothed staircase
follower. -/
def rmsEnergy (st : SmoothedFastEnv) (s : ℚ) : ℚ :=
  ((st.process (s * s)).out)

/-- The value passed to `fast_sqrt` by the RMS follower: the tracked energy
after the floor clamp `if (e < threshold) e = 0;`. -/
def rmsSqrtArg (st : SmoothedFastEnv) (s : ℚ) : ℚ :=
  if rmsEnergy st s < rmsThreshold then 0 else rmsEnergy st s

/-- One call of `fast_rms_envelope_follower::operator()(float s)`: square,
track, clamp, square root. `fast_sqrt` is external; the spec allows an exact
square root, modelled as `Real.sqrt`. -/
noncomputable def rmsProcess (st : SmoothedFastEnv) (s : ℚ) : SmoothedFastEnv × ℝ :=
  (st.process (s * s), Real.sqrt ((rmsSqrtArg st s : ℚ) : ℝ))

/-- Modelled from the spec: the decibel conversion primitive (external, in
`q/support/decibel.hpp`): a positive linear magnitude `x` maps to
`20·log10 x`; silence (zero, after the clamp) is encoded as `⊥` (negative
infinity), the defined silence encoding of the decibel representation. -/
noncomputable def dB (x : ℝ) : WithBot ℝ :=
  if x ≤ 0 then ⊥ else ((20 : ℝ) * Real.logb 10 x : ℝ)

/-- Division of a decibel value by 2 (`decibel{e} / 2.0f`); silence stays
silence. -/
noncomputable def dbHalf (d : WithBot ℝ) : WithBot ℝ := WithBot.map (fun v => v / 2) d

/-- One call of `fast_rms_envelope_follower_db::operator()(float s)`: same
squared tracking and clamp, then square root in the dB domain:
`return decibel{e} / 2.0f;`. -/
noncomputable def rmsDbProcess (st : SmoothedFastEnv) (s : ℚ) : SmoothedFastEnv × WithBot ℝ :=
  (st.process (s * s), dbHalf (dB ((rmsSqrtArg st s : ℚ) : ℝ)))

/-- State of `envelope_follower`: current output `y` and the two
coefficients `_attack`, `_release`. The sample type is kept polymorphic over
a linear ordered field; `ℝ` (with the exact exponential) and `ℚ` are the
instantiations used in the theorems. -/
structure EnvFollower (α : Type) where
  y : α
  attack : α
  release : α

/-- Constructor `envelope_follower(duration attack, duration release, float
sps)`: `y = 0`, `_attack = fast_exp3(-2/(sps·attack))`, `_release =
fast_exp3(-2/(sps·release))` (durations modelled as seconds). `fast_exp3`
is an external primitive (`q/support` is not part of this source); it is
passed as the parameter `E`; per the spec the exact exponential is an
acceptable instantiation. -/
def envFollowerInit [LinearOrderedField α] (E : α → α) (attack release sps : α) :
    EnvFollower α :=
  { y := 0
    attack := E (-2 / (sps * attack))
    release := E (-2 / (sps * release)) }

/-- One call of `envelope_follower::operator()(float s)`:
`return y = s + ((s > y) ? _attack : _release) * (y - s);` — returns the
new state and the returned value. -/
def EnvFollower.process [LinearOrderedField α] (st : EnvFollower α) (s : α) :
    EnvFollower α × α :=
  let y1 := s + (if st.y < s then st.attack else st.release) * (st.y - s)
  ({ st with y := y1 }, y1)

/-- `envelope_follower::config(duration attack, duration release, float
sps)`: recomputes both coefficients. -/
def EnvFollower.config [LinearOrderedField α] (st : EnvFollower α)
    (E : α → α) (attack release sps : α) : EnvFollower α :=
  { st with
    attack := E (-2 / (sps * attack))
    release := E (-2 / (sps * release)) }

/-- `envelope_follower::attack(float attack_, float sps)`: recomputes the
attack coefficient only (renamed to avoid clashing with the field). -/
def EnvFollower.setAttack [LinearOrderedField α] (st : EnvFollower α)
    (E : α → α) (attack1 sps : α) : EnvFollower α :=
  { st with attack := E (-2 / (sps * attack1)) }

/-- `envelope_follower::release(float release_, float sps)`: recomputes the
release coefficient only (renamed to avoid clashing with the field). -/
def EnvFollower.setRelease [LinearOrderedField α] (st : EnvFollower α)
    (E : α → α) (release1 sps : α) : EnvFollower α :=
  { st with release := E (-2 / (sps * release1)) }

/-- State of `peak_envelope_follower`: current output `y` and `_release`. -/
structure PeakFollower (α : Type) where
  y : α
  release : α

/-- Constructor `peak_envelope_follower(duration release, float sps)`:
`y = 0`, `_release = fast_exp3(-2/(sps·release))` with the external
exponential primitive passed as `E`. -/
def peakFollowerInit [LinearOrderedField α] (E : α → α) (release sps : α) :
    PeakFollower α :=
  { y := 0, release := E (-2 / (sps * release)) }

/-- One call of `peak_envelope_follower::operator()(float s)`:
`if (s > y) y = s; else y = s + _release * (y - s); return y;`. -/
def PeakFollower.process [LinearOrderedField α] (st : PeakFollower α) (s : α) :
    PeakFollower α × α :=
  if st.y < s then ({ st with y := s }, s)
  else
    let y1 := s + st.release * (st.y - s)
    ({ st with y := y1 }, y1)

/-! ### Helper lemmas -/

theorem le_foldl_max (xs : List ℚ) (a : ℚ) : a ≤ xs.foldl max a := by
  induction xs generalizing a with
  | nil => exact le_refl a
  | cons b bs ih => exact le_trans (le_max_left a b) (ih (max a b))

theorem maxElem_nonneg (l : List ℚ) (h : ∀ x ∈ l, (0 : ℚ) ≤ x) : 0 ≤ maxElem l := by
  cases l with
  | nil => exact le_refl 0
  | cons x xs =>
    exact le_trans (h x (List.mem_cons_self x xs)) (le_foldl_max xs x)

theorem FastEnv.process_reset (st : FastEnv) (s : ℚ) :
    (st.process s).reset = st.reset := by
  unfold FastEnv.process
  split <;> rfl

theorem FastEnv.process_tick (st : FastEnv) (s : ℚ) :
    (st.process s).tick = if st.tick = st.reset then 0 else (st.tick + 1) % 65536 := by
  unfold FastEnv.process
  split <;> rfl

theorem clearCount_eq_zero (ss : List ℚ) (st : FastEnv)
    (h : st.tick + ss.length ≤ st.reset) : clearCount st ss = 0 := by
  induction ss generalizing st with
  | nil => rfl
  | cons s ss ih =>
    have hne : st.tick ≠ st.reset := by
      simp only [List.length_cons] at h
      omega
    have htick : (st.process s).tick = (st.tick + 1) % 65536 := by
      rw [FastEnv.process_tick, if_neg hne]
    have h2 : (st.process s).tick + ss.length ≤ (st.process s).reset := by
      rw [htick, FastEnv.process_reset]
      have hle : (st.tick + 1) % 65536 ≤ st.tick + 1 := Nat.mod_le _ _
      simp only [List.length_cons] at h
      omega
    unfold clearCount
    rw [if_neg hne, ih (st.process s) h2]

theorem rmsThreshold_pos : (0 : ℚ) < rmsThreshold := by norm_num [rmsThreshold]

theorem rmsSqrtArg_nonneg (st : SmoothedFastEnv) (s : ℚ) : 0 ≤ rmsSqrtArg st s := by
  unfold rmsSqrtArg
  split
  · exact le_refl 0
  · exact le_trans (le_of_lt rmsThreshold_pos) (not_lt.mp (by assumption))

theorem dbHalf_dB_sqrt (v : ℝ) (hv : 0 ≤ v) :
    dbHalf (dB v) = dB (Real.sqrt v) := by
  rcases eq_or_lt_of_le hv with h0 | hpos
  · rw [← h0]
    simp [dB, dbHalf, Real.sqrt_zero]
  · have hsq : 0 < Real.sqrt v := Real.sqrt_pos.mpr hpos
    rw [dB, if_neg (not_le.mpr hpos), dB, if_neg (not_le.mpr hsq)]
    rw [dbHalf, WithBot.map_coe]
    have hlogb : Real.logb 10 (Real.sqrt v) = Real.logb 10 v / 2 := by
      unfold Real.logb
      rw [Real.log_sqrt (le_of_lt hpos)]
      ring
    rw [hlogb, WithBot.coe_eq_coe]
    ring

/-! ### Claims -/

/-- C3: for every state of the exponential envelope follower with current
output `y` and every input `s`, `process(s)` computes
`y' = s + a·(y − s)` with `a = _attack` when `s > y` and `a = _release`
otherwise, stores `y'` as the new current output, returns `y'`, and leaves
the coefficients unchanged. -/
theorem C3_env_follower_process {α : Type} [LinearOrderedField α]
    (st : EnvFollower α) (s : α) :
    (st.process s).2 = s + (if st.y < s then st.attack else st.release) * (st.y - s) ∧
    (st.process s).1.y = (st.process s).2 ∧
    (st.process s).1.attack = st.attack ∧
    (st.process s).1.release = st.release :=
  ⟨rfl, rfl, rfl, rfl⟩

/-- C6: for the peak envelope follower, processing a sample `s` at or above
the current output `y` returns exactly `s` (zero-lag attack): when `s > y`
the new output is `s` with no interpolation, and otherwise the output decays
as `y' = s + release·(y − s)`. -/
theorem C6_peak_zero_lag {α : Type} [LinearOrderedField α]
    (st : PeakFollower α) (s : α) :
    (st.y ≤ s → (st.process s).2 = s) ∧
    (st.y < s → (st.process s).1.y = s ∧ (st.process s).2 = s) ∧
    (¬ st.y < s →
      (st.process s).1.y = s + st.release * (st.y - s) ∧
      (st.process s).2 = s + st.release * (st.y - s)) := by
  refine ⟨?_, ?_, ?_⟩
  · intro h
    by_cases hlt : st.y < s
    · simp [PeakFollower.process, hlt]
    · have he : st.y = s := le_antisymm h (not_lt.mp hlt)
      simp [PeakFollower.process, hlt, he]
  · intro h
    simp [PeakFollower.process, h]
  · intro h
    simp [PeakFollower.process, h]

/-- Witness for C6 at a concrete state: the freshly constructed follower has
`y = 0 ≤ 5`, and processing the sample 5 returns exactly 5. -/
theorem C6_peak_zero_lag_witness :
    (peakFollowerInit (id : ℚ → ℚ) 1 1).y ≤ 5 ∧
    ((peakFollowerInit (id : ℚ → ℚ) 1 1).process 5).2 = 5 :=
  ⟨by decide, (C6_peak_zero_lag (peakFollowerInit (id : ℚ → ℚ) 1 1) 5).1 (by decide)⟩

/-- C7: with the exponential primitive instantiated at the exact
exponential (the spec allows this), the constructors derive every
coefficient as `exp(−2 / (sps·τ))` — both coefficients of the exponential
follower and the release coefficient of the peak follower — and for strictly
positive `τ` and `sps` the derived coefficient lies in `(0, 1)`. -/
theorem C7_coefficient_derivation (a r sps : ℝ)
    (ha : 0 < a) (hr : 0 < r) (hs : 0 < sps) :
    (envFollowerInit Real.exp a r sps).attack = Real.exp (-2 / (sps * a)) ∧
    (envFollowerInit Real.exp a r sps).release = Real.exp (-2 / (sps * r)) ∧
    (peakFollowerInit Real.exp r sps).release = Real.exp (-2 / (sps * r)) ∧
    (0 < (envFollowerInit Real.exp a r sps).attack ∧
      (envFollowerInit Real.exp a r sps).attack < 1) ∧
    (0 < (envFollowerInit Real.exp a r sps).release ∧
      (envFollowerInit Real.exp a r sps).release < 1) ∧
    (0 < (peakFollowerInit Real.exp r sps).release ∧
      (peakFollowerInit Real.exp r sps).release < 1) := by
  have harg : ∀ t : ℝ, 0 < t → (-2 / (sps * t)) < 0 := fun t ht =>
    div_neg_of_neg_of_pos (by norm_num) (mul_pos hs ht)
  refine ⟨rfl, rfl, rfl, ⟨Real.exp_pos _, ?_⟩, ⟨Real.exp_pos _, ?_⟩,
    ⟨Real.exp_pos _, ?_⟩⟩
  · exact Real.exp_lt_one_iff.mpr (harg a ha)
  · exact Real.exp_lt_one_iff.mpr (harg r hr)
  · exact Real.exp_lt_one_iff.mpr (harg r hr)

/-- Witness for C7 at `τ = 1`, `sps = 1`: the attack coefficient equals
`exp(−2)` and lies strictly between 0 and 1. -/
theorem C7_coefficient_derivation_witness :
    (0 : ℝ) < 1 ∧
    ((envFollowerInit Real.exp 1 1 1).attack = Real.exp (-2 / (1 * 1)) ∧
      0 < (envFollowerInit Real.exp 1 1 1).attack ∧
      (envFollowerInit Real.exp 1 1 1).attack < 1) := by
  have h := C7_coefficient_derivation 1 1 1 (by norm_num) (by norm_num) (by norm_num)
  exact ⟨by norm_num, h.1, h.2.2.2.1⟩

/-- C8: the reconfiguration operations of the exponential envelope follower
(`config`, and the partial attack / release setters) recompute only the
coefficient fields by the coefficient derivation and leave the current
output `y` exactly unchanged. -/
theorem C8_reconfigure_preserves_y {α : Type} [LinearOrderedField α]
    (st : EnvFollower α) (E : α → α) (a r sps : α) :
    (st.config E a r sps).y = st.y ∧
    (st.setAttack E a sps).y = st.y ∧
    (st.setRelease E r sps).y = st.y ∧
    (st.config E a r sps).attack = E (-2 / (sps * a)) ∧
    (st.config E a r sps).release = E (-2 / (sps * r)) ∧
    (st.setAttack E a sps).attack = E (-2 / (sps * a)) ∧
    (st.setAttack E a sps).release = st.release ∧
    (st.setRelease E r sps).release = E (-2 / (sps * r)) ∧
    (st.setRelease E r sps).attack = st.attack :=
  ⟨rfl, rfl, rfl, rfl, rfl, rfl, rfl, rfl, rfl⟩

/-- C1, counterexample to the claimed bound: for the staircase follower with
`div = 2` and a hold count of 10 samples, after an impulse of magnitude 1
followed by 30 zero samples — the claimed `(N+1)·hold = 30` bound — every
one of the 31 outputs still equals 1; the output has not reached 0. -/
theorem C1_staircase_counterexample :
    ((fastEnvInit 2 10).outputs (1 :: List.replicate 30 0)).count 0 = 0 ∧
    ((fastEnvInit 2 10).outputs (1 :: List.replicate 30 0)).getLast? = some 1 := by
  decide

/-- C1, amended: for the staircase follower with `div = 2` and hold count
10, after a unit impulse followed by zero samples, the output stays exactly
1 (in particular ≥ 1 for at least the first 10 hold samples) for 32 samples
— a slot is cleared every `hold+1 = 11` samples because the source compares
`_tick` with `_reset` before incrementing — and becomes exactly 0 on the
33rd call, i.e. after `(N+1)·(hold+1) − 1 = 32` zero samples, exactly when
the last of the `N+1 = 3` slots has been cleared. -/
theorem C1_staircase_impulse_amended :
    (fastEnvInit 2 10).outputs (1 :: List.replicate 32 0) =
      List.replicate 32 1 ++ [0] ∧
    ((fastEnvInit 2 10).run (1 :: List.replicate 32 0)).y = List.replicate 3 0 ∧
    ((fastEnvInit 2 10).run (1 :: List.replicate 31 0)).y ≠ List.replicate 3 0 := by
  decide

/-- C2: one call of the staircase follower's process on input `s` first
raises every slot to `max(s, slot)`, then — exactly when the sample counter
has reached the hold threshold `_reset` — resets the counter to zero, clears
exactly one slot (slot `_i % size`, the next in round-robin order) and
advances the rotation index (a 16-bit counter, so modulo 2^16), otherwise
just increments the counter; the stored and returned peak is the maximum
over all slots. Consequently at most one slot is cleared per `_reset`
samples: after any clearing call, none of the next `_reset` calls clears. -/
theorem C2_staircase_process_steps (st : FastEnv) (s : ℚ) (ss : List ℚ) :
    st.process s =
      (if st.tick = st.reset then
        { st with
          y := (st.y.map (fun v => max s v)).set (st.i % st.size) 0
          peak := maxElem ((st.y.map (fun v => max s v)).set (st.i % st.size) 0)
          tick := 0
          i := (st.i + 1) % 65536 }
      else
        { st with
          y := st.y.map (fun v => max s v)
          peak := maxElem (st.y.map (fun v => max s v))
          tick := (st.tick + 1) % 65536 }) ∧
    (st.process s).peak = maxElem (st.process s).y ∧
    (st.tick = st.reset → ss.length ≤ st.reset →
      clearCount (st.process s) ss = 0) := by
  refine ⟨?_, ?_, ?_⟩
  · unfold FastEnv.process
    split <;> rfl
  · unfold FastEnv.process
    split <;> rfl
  · intro hclear hlen
    apply clearCount_eq_zero
    rw [FastEnv.process_tick, if_pos hclear, FastEnv.process_reset]
    simpa using hlen

/-- Witness for C2 at a concrete clearing state: `tick = reset = 10`, and in
the 10 calls following the clearing call no further slot is cleared. -/
theorem C2_staircase_process_steps_witness :
    (FastEnv.mk 2 [0, 0, 0] 0 10 0 10).tick = (FastEnv.mk 2 [0, 0, 0] 0 10 0 10).reset ∧
    (List.replicate 10 (0 : ℚ)).length ≤ (FastEnv.mk 2 [0, 0, 0] 0 10 0 10).reset ∧
    clearCount ((FastEnv.mk 2 [0, 0, 0] 0 10 0 10).process 1) (List.replicate 10 0) = 0 :=
  ⟨by decide, by decide,
    (C2_staircase_process_steps (FastEnv.mk 2 [0, 0, 0] 0 10 0 10) 1
      (List.replicate 10 0)).2.2 (by decide) (by decide)⟩

/-- C9: construction with a hold-sample count of 0 is well-defined (the
model, like the source, divides by nothing and every call is a terminating
computation): the constructed state has `reset = 0` and `tick = 0`, and from
any such state every single call fires the reset — the counter stays 0,
exactly one slot (index `_i % size`, which is a valid slot index) is cleared
to zero, and the rotation index advances. -/
theorem C9_hold_zero_degenerate (d : ℕ) (s : ℚ) (st : FastEnv)
    (h0 : st.reset = 0) (ht : st.tick = 0) :
    ((fastEnvInit d 0).reset = 0 ∧ (fastEnvInit d 0).tick = 0) ∧
    (st.process s).tick = 0 ∧
    (st.process s).y = (st.y.map (fun v => max s v)).set (st.i % st.size) 0 ∧
    (st.process s).i = (st.i + 1) % 65536 ∧
    st.i % st.size < st.size := by
  have heq : st.tick = st.reset := by rw [h0, ht]
  refine ⟨⟨rfl, rfl⟩, ?_, ?_, ?_, Nat.mod_lt _ (Nat.succ_pos st.div)⟩
  · unfold FastEnv.process
    rw [if_pos heq]
  · unfold FastEnv.process
    rw [if_pos heq]
  · unfold FastEnv.process
    rw [if_pos heq]

/-- Witness for C9 at the freshly constructed state with `div = 2` and hold
count 0: the first call already clears slot 0. -/
theorem C9_hold_zero_degenerate_witness :
    (fastEnvInit 2 0).reset = 0 ∧ (fastEnvInit 2 0).tick = 0 ∧
    ((fastEnvInit 2 0).process 1).y =
      (((fastEnvInit 2 0).y.map (fun v => max 1 v)).set
        ((fastEnvInit 2 0).i % (fastEnvInit 2 0).size) 0) :=
  ⟨by decide, by decide,
    (C9_hold_zero_degenerate 2 1 (fastEnvInit 2 0) (by decide) (by decide)).2.2.1⟩

/-- C10: the staircase follower's slots and stored peak are nonnegative
after construction and stay nonnegative after every call, for every input
including negative samples: slots start at 0, are only ever raised by `max`
with the input or cleared back to exactly 0, and the peak is the maximum
over the slots. -/
theorem C10_staircase_nonneg (d h : ℕ) (s : ℚ) (st : FastEnv)
    (hy : ∀ x ∈ st.y, (0 : ℚ) ≤ x) :
    (∀ x ∈ (fastEnvInit d h).y, (0 : ℚ) ≤ x) ∧
    (fastEnvInit d h).peak = 0 ∧
    (∀ x ∈ (st.process s).y, (0 : ℚ) ≤ x) ∧
    0 ≤ (st.process s).peak := by
  have hmap : ∀ x ∈ st.y.map (fun v => max s v), (0 : ℚ) ≤ x := by
    intro x hx
    rcases List.mem_map.mp hx with ⟨v, hv, rfl⟩
    exact le_trans (hy v hv) (le_max_right s v)
  have hset : ∀ x ∈ (st.y.map (fun v => max s v)).set (st.i % st.size) 0,
      (0 : ℚ) ≤ x := by
    intro x hx
    rcases List.mem_or_eq_of_mem_set hx with h1 | h1
    · exact hmap x h1
    · rw [h1]
  have hproc : ∀ x ∈ (st.process s).y, (0 : ℚ) ≤ x := by
    unfold FastEnv.process
    split
    · exact hset
    · exact hmap
  have hpeak : (st.process s).peak = maxElem (st.process s).y := by
    unfold FastEnv.process
    split <;> rfl
  refine ⟨?_, rfl, hproc, ?_⟩
  · intro x hx
    rw [List.eq_of_mem_replicate hx]
  · rw [hpeak]
    exact maxElem_nonneg _ hproc

/-- Witness for C10: the fresh follower has nonnegative slots, and after
processing the negative sample −5 the stored peak is still nonnegative. -/
theorem C10_staircase_nonneg_witness :
    ((fastEnvInit 2 3).process (-5)).peak = 0 ∧
    0 ≤ ((fastEnvInit 2 3).process (-5)).peak :=
  ⟨by decide, (C10_staircase_nonneg 2 3 (-5) (fastEnvInit 2 3) (by decide)).2.2.2⟩

/-- C5: the RMS follower squares its input and feeds it to the smoothed
staircase follower; if the tracked energy is below the fixed −120 dB floor
constant it is set to exactly 0 before the square root, so the value passed
to the square root is never negative and never a positive value below the
threshold. -/
theorem C5_rms_floor_clamp (st : SmoothedFastEnv) (s : ℚ) :
    rmsProcess st s = (st.process (s * s), Real.sqrt ((rmsSqrtArg st s : ℚ) : ℝ)) ∧
    rmsEnergy st s = (st.process (s * s)).out ∧
    rmsSqrtArg st s =
      (if rmsEnergy st s < rmsThreshold then 0 else rmsEnergy st s) ∧
    0 ≤ rmsSqrtArg st s ∧
    ¬(0 < rmsSqrtArg st s ∧ rmsSqrtArg st s < rmsThreshold) := by
  refine ⟨rfl, rfl, rfl, rmsSqrtArg_nonneg st s, ?_⟩
  rintro ⟨hpos, hlt⟩
  unfold rmsSqrtArg at hpos hlt
  by_cases hc : rmsEnergy st s < rmsThreshold
  · rw [if_pos hc] at hpos
    exact lt_irrefl 0 hpos
  · rw [if_neg hc] at hlt
    exact hc hlt

/-- Witness for C5 at a concrete state and input: the value passed to the
square root is nonnegative and is not a positive value below the floor. -/
theorem C5_rms_floor_clamp_witness :
    0 ≤ rmsSqrtArg (smoothedInit 2 1) 1 ∧
    ¬(0 < rmsSqrtArg (smoothedInit 2 1) 1 ∧
      rmsSqrtArg (smoothedInit 2 1) 1 < rmsThreshold) :=
  ⟨(C5_rms_floor_clamp (smoothedInit 2 1) 1).2.2.2.1,
    (C5_rms_floor_clamp (smoothedInit 2 1) 1).2.2.2.2⟩

/-- C4: fed the same input from the same state, the decibel RMS variant's
output is exactly the decibel conversion of the linear variant's output (the
square root in the dB domain, `dB(e)/2`, agrees with `dB(sqrt e)`; the model
uses exact real arithmetic, so the floating-point tolerance is 0); when the
tracked energy is at or above the −120 dB floor the dB output equals
`dB(e)/2`, and below the floor the linear variant returns 0 while the dB
variant returns the decibel encoding of 0 (silence, `⊥`). -/
theorem C4_rms_db_relation (st : SmoothedFastEnv) (s : ℚ) :
    (rmsDbProcess st s).1 = (rmsProcess st s).1 ∧
    (rmsDbProcess st s).2 = dB ((rmsProcess st s).2) ∧
    (rmsThreshold ≤ rmsEnergy st s →
      (rmsDbProcess st s).2 = dbHalf (dB ((rmsEnergy st s : ℚ) : ℝ))) ∧
    (rmsEnergy st s < rmsThreshold →
      (rmsProcess st s).2 = 0 ∧ (rmsDbProcess st s).2 = ⊥) := by
  refine ⟨rfl, ?_, ?_, ?_⟩
  · have harg : (0 : ℝ) ≤ ((rmsSqrtArg st s : ℚ) : ℝ) := by
      exact_mod_cast rmsSqrtArg_nonneg st s
    exact (dbHalf_dB_sqrt _ harg).symm ▸ rfl
  · intro hth
    have hae : rmsSqrtArg st s = rmsEnergy st s := by
      unfold rmsSqrtArg
      rw [if_neg (not_lt.mpr hth)]
    unfold rmsDbProcess
    rw [hae]
  · intro hlt
    have ha0 : rmsSqrtArg st s = 0 := by
      unfold rmsSqrtArg
      rw [if_pos hlt]
    constructor
    · show Real.sqrt ((rmsSqrtArg st s : ℚ) : ℝ) = 0
      rw [ha0]
      simp [Real.sqrt_zero]
    · show dbHalf (dB ((rmsSqrtArg st s : ℚ) : ℝ)) = ⊥
      rw [ha0]
      simp [dB, dbHalf]

/-- Witness for C4 with `div = 2`, hold count 1, input 1 from the fresh
state: the tracked energy is 1, at or above the floor, and the dB output
equals half the decibel conversion of the energy. -/
theorem C4_rms_db_relation_witness :
    rmsThreshold ≤ rmsEnergy (smoothedInit 2 1) 1 ∧
    (rmsDbProcess (smoothedInit 2 1) 1).2 =
      dbHalf (dB ((rmsEnergy (smoothedInit 2 1) 1 : ℚ) : ℝ)) := by
  have he : rmsEnergy (smoothedInit 2 1) 1 = 1 := by
    norm_num [rmsEnergy, smoothedInit, SmoothedFastEnv.process, SmoothedFastEnv.out,
      fastEnvInit, movingAvgInit, FastEnv.process, MovingAvg.process, maxElem,
      FastEnv.size, List.foldl, List.replicate]
  have hth : rmsThreshold ≤ rmsEnergy (smoothedInit 2 1) 1 := by
    rw [he]
    norm_num [rmsThreshold]
  exact ⟨hth, (C4_rms_db_relation (smoothedInit 2 1) 1).2.2.1 hth⟩

end Q
